import Mathlib

/-!
# lua-win32: a shallow embedding of `win32.c`

The module `win32.c` binds a handful of Win32 services to Lua.  This file
embeds its functions as Lean definitions and states the properties of the
code-page registry, the string codec, the result marshaller and the facade
operations as theorems.

Conventions of the embedding

* A C pointer to a buffer is `Option (List Nat)`: `none` is `NULL`, `some b`
  holds the units (bytes or 16-bit units) from the pointer to the end of its
  allocation.  A read that runs off the end of an allocation is undefined
  behaviour and shows up as `Outcome.fault`.
* The Lua stack is a `List LuaValue`, bottom first; index `1` is its head.
  A C function that returns `n` hands the top `n` values to its caller.
  Lua hands a C function `LUA_MINSTACK` free slots; the loops that push one
  value per element count them, and a push with no free slot left is
  undefined behaviour.
* The process state (`codePage`, the heap of `GlobalAlloc`) and what the
  operating system answers are explicit: `World` and `OS`.
* `UINT` is `Nat` reduced modulo `2 ^ 32`; `lua_Integer` is `Int`.
-/

namespace Win32

/-! ## Constants of `windows.h` -/

def CP_ACP : Nat := 0
def CP_OEMCP : Nat := 1
def CP_SYMBOL : Nat := 42
def CP_UTF8 : Nat := 65001
def SW_SHOWNORMAL : Nat := 1
def MB_OK : Int := 0
def OFN_NOCHANGEDIR : Nat := 0x8
def OFN_ALLOWMULTISELECT : Nat := 0x200
def OFN_EXPLORER : Nat := 0x80000
def OFN_LONGNAMES : Nat := 0x200000

def LUA_WIN32_DEFAULT_CODE_PAGE : Nat := CP_UTF8

def FOLDERNAME_MAX_SIZE : Nat := 512
def FILENAME_MAX_SIZE : Nat := 64
def OPENFILES_MAX_COUNT : Nat := 24
def OPENFILES_MAX_SIZE : Nat := FOLDERNAME_MAX_SIZE + FILENAME_MAX_SIZE * OPENFILES_MAX_COUNT

/-- The number of free stack slots Lua guarantees to a C function (`lua.h`). -/
def LUA_MINSTACK : Nat := 20

/-- The value of `sizeof (WCHAR)`. -/
def sizeofWCHAR : Nat := 2

/-! ## Values, state and environment -/

/-- A Lua value as the C API sees it.  A string is its bytes (any bytes, a
zero byte included); a float is identified with the text `lua_tolstring`
converts it to; `other` stands for tables, functions, userdata. -/
inductive LuaValue where
  | nil : LuaValue
  | bool (b : Bool) : LuaValue
  | int (n : Int) : LuaValue
  | float (text : List Nat) : LuaValue
  | str (bytes : List Nat) : LuaValue
  | other (tag : Nat) : LuaValue
  deriving DecidableEq

/-- Process state: the static `codePage`, the code page the console has right
now, the number of live `GlobalAlloc` blocks, and the outcomes of the
upcoming `GlobalAlloc` calls (`true` succeeds; once the list is used up every
allocation succeeds). -/
structure World where
  codePage : Nat
  consoleCP : Nat
  live : Nat
  allocs : List Bool
  deriving DecidableEq

/-- What `GetOpenFileNameW` / `GetSaveFileNameW` leave behind: the `BOOL`
they return, the contents of the `filename` buffer and `ofn.Flags`. -/
structure DialogResult where
  done : Nat
  file : List Nat
  flags : Nat
  deriving DecidableEq

/-- Answers of the operating system.  `toWide cp s` is the conversion
`MultiByteToWideChar` performs on the narrow string `s` under code page `cp`
(without terminator, `none` when the conversion fails), `toNarrow` the one of
`WideCharToMultiByte`; `junk` is what freshly allocated memory holds;
`CommandLineToArgvW` answers `none` for `NULL` and otherwise the argument
vector, whose length is `nArgs`; `tointeger` is the conversion of floats and
numeric strings that `lua_tointegerx` performs. -/
structure OS where
  toWide : Nat → List Nat → Option (List Nat)
  toNarrow : Nat → List Nat → Option (List Nat)
  junk : Nat
  ShellExecuteW : Option (List Nat) → Option (List Nat) → Option (List Nat) →
    Option (List Nat) → Nat → Nat
  MessageBoxW : Option (List Nat) → Option (List Nat) → Nat → Int
  GetOpenFileNameW : Nat → Nat → DialogResult
  GetSaveFileNameW : Nat → Nat → DialogResult
  GetCommandLineW : Option (List Nat)
  CommandLineToArgvW : Option (List Nat) → Option (List (List Nat))
  tointeger : LuaValue → Option Int

/-- How a call ends: it returns, it raises a Lua error (`luaL_error` does a
long jump; the process state at that moment is kept), it runs into undefined
behaviour, or the model ran out of fuel. -/
inductive Outcome (α : Type) where
  | ok (a : α) : Outcome α
  | error (w : World) (msg : String) : Outcome α
  | fault : Outcome α
  | diverge : Outcome α
  deriving DecidableEq

/-- The bytes of a C string literal. -/
def bytes (s : String) : List Nat := s.data.map Char.toNat

/-- The C string at a pointer: the units before the first zero unit, `none`
when the allocation ends before a zero unit is met. -/
def cstr : List Nat → Option (List Nat)
  | [] => none
  | u :: rest => if u = 0 then some [] else (cstr rest).map (fun s => u :: s)

/-- Length of the C string at a pointer (`strlen`, `wcslen`). -/
def wcslen (p : List Nat) : Option Nat := (cstr p).map List.length

/-- The values a C function that returns `n` hands back: the top `n`. -/
def luaResults (stack : List LuaValue) (n : Nat) : List LuaValue :=
  stack.drop (stack.length - n)

/-- Argument `idx` (1-based) of the running C function, `none` when absent. -/
def lua_arg (stack : List LuaValue) (idx : Nat) : Option LuaValue :=
  if idx = 0 then none else stack.get? (idx - 1)

/-- `lua_isinteger`: the value is a number represented as an integer. -/
def lua_isinteger (stack : List LuaValue) (idx : Nat) : Bool :=
  match lua_arg stack idx with
  | some (.int _) => true
  | _ => false

/-- `lua_isstring`: the value is a string or a number. -/
def lua_isstring (stack : List LuaValue) (idx : Nat) : Bool :=
  match lua_arg stack idx with
  | some (.str _) => true
  | some (.int _) => true
  | some (.float _) => true
  | _ => false

/-- `lua_tointeger` on a value for which `lua_isinteger` holds. -/
def lua_tointeger (stack : List LuaValue) (idx : Nat) : Int :=
  match lua_arg stack idx with
  | some (.int n) => n
  | _ => 0

/-- The decimal text of an integer, as `lua_tolstring` renders it. -/
def intText (n : Int) : List Nat := bytes (toString n)

/-- `lua_tolstring`: a pointer to the bytes of a string followed by a
terminator, `NULL` for a value that is neither a string nor a number.  A
number in the slot is replaced, in place, by the string of its text. -/
def lua_tolstring (stack : List LuaValue) (idx : Nat) :
    List LuaValue × Option (List Nat) :=
  match lua_arg stack idx with
  | some (.str b) => (stack, some (b ++ [0]))
  | some (.int n) => (stack.set (idx - 1) (.str (intText n)), some (intText n ++ [0]))
  | some (.float t) => (stack.set (idx - 1) (.str t), some (t ++ [0]))
  | _ => (stack, none)

/-- `luaL_checkstring`: the pointer `lua_tolstring` gives, and the stack it
leaves; a value that is neither a string nor a number is a type error. -/
def luaL_checkstring (w : World) (stack : List LuaValue) (idx : Nat) :
    Outcome (List LuaValue × List Nat) :=
  match lua_tolstring stack idx with
  | (stack1, some p) => .ok (stack1, p)
  | (_, none) => .error w "string expected"

/-- `luaL_optstring (l, idx, NULL)`: `NULL` for an absent or nil argument. -/
def luaL_optstring (w : World) (stack : List LuaValue) (idx : Nat) :
    Outcome (List LuaValue × Option (List Nat)) :=
  match lua_arg stack idx with
  | none => .ok (stack, none)
  | some .nil => .ok (stack, none)
  | _ =>
    match luaL_checkstring w stack idx with
    | .ok (stack1, p) => .ok (stack1, some p)
    | .error w1 m => .error w1 m
    | .fault => .fault
    | .diverge => .diverge

/-- `strcmp (a, b) == 0` on two pointers. -/
def strcmpEq (a b : List Nat) : Bool :=
  match cstr a, cstr b with
  | some x, some y => decide (x = y)
  | _, _ => false

/-- The loop of `luaL_checkoption` over the option list. -/
def findOption (name : List Nat) : List (List Nat) → Nat → Option Nat
  | [], _ => none
  | o :: rest, i => if strcmpEq o name then some i else findOption name rest (i + 1)

/-- `luaL_checkoption (l, idx, NULL, lst)`: the index of the first entry of
`lst` that `strcmp` finds equal to the argument, an error otherwise. -/
def luaL_checkoption (w : World) (stack : List LuaValue) (idx : Nat)
    (lst : List (List Nat)) : Outcome (List LuaValue × Nat) :=
  match luaL_checkstring w stack idx with
  | .ok (stack1, name) =>
    match findOption name lst 0 with
    | some i => .ok (stack1, i)
    | none => .error w "invalid option"
  | .error w1 m => .error w1 m
  | .fault => .fault
  | .diverge => .diverge

/-! ## Code page registry -/

def win32_code_page_names : List (List Nat) :=
  [bytes "default" ++ [0], bytes "console" ++ [0], bytes "utf-8" ++ [0],
   bytes "ansi" ++ [0], bytes "oem" ++ [0], bytes "symbol" ++ [0]]

def win32_code_pages : List Nat :=
  [LUA_WIN32_DEFAULT_CODE_PAGE, 0, CP_UTF8, CP_ACP, CP_OEMCP, CP_SYMBOL]

/-- The cast `(UINT)` of a `lua_Integer`. -/
def toUINT (n : Int) : Nat := (n % 2 ^ 32).toNat

def GetConsoleOutputCP (w : World) : Nat := w.consoleCP

/-- The result is the stack the argument checks leave and the code page. -/
def get_code_page_arg (w : World) (stack : List LuaValue) (idx : Nat) (dflt : Nat) :
    Outcome (List LuaValue × Nat) :=
  if lua_isinteger stack idx then
    .ok (stack, toUINT (lua_tointeger stack idx))
  else if lua_isstring stack idx then
    match luaL_checkoption w stack idx win32_code_page_names with
    | .ok (stack1, opt) =>
      if opt = 1 then
        .ok (stack1, GetConsoleOutputCP w)
      else
        match win32_code_pages.get? opt with
        | some cp => .ok (stack1, cp)
        | none => .fault
    | .error w1 m => .error w1 m
    | .fault => .fault
    | .diverge => .diverge
  else
    .ok (stack, dflt)

/-- A facade operation returns the new state, the stack and its result count. -/
abbrev Ret := World × List LuaValue × Nat

def win32_GetConsoleOutputCodePage (w : World) (stack : List LuaValue) : Outcome Ret :=
  .ok (w, stack ++ [.int (GetConsoleOutputCP w)], 1)

def win32_GetCodePage (w : World) (stack : List LuaValue) : Outcome Ret :=
  .ok (w, stack ++ [.int w.codePage], 1)

def win32_SetCodePage (w : World) (stack : List LuaValue) : Outcome Ret :=
  match get_code_page_arg w stack 1 LUA_WIN32_DEFAULT_CODE_PAGE with
  | .ok (stack1, cp) => .ok ({ w with codePage := cp }, stack1, 0)
  | .error w1 m => .error w1 m
  | .fault => .fault
  | .diverge => .diverge

/-! ## String codec -/

/-- A fresh block of `n` units. -/
def fresh (os : OS) (n : Nat) : List Nat := List.replicate n os.junk

/-- `GlobalAlloc (GMEM_FIXED, n)`: the next scripted outcome; a successful
call adds a live block and returns a fresh block of `n` bytes. -/
def GlobalAlloc (os : OS) (w : World) (n : Nat) : World × Option (List Nat) :=
  match w.allocs with
  | [] => ({ w with live := w.live + 1 }, some (fresh os n))
  | true :: rest => ({ w with live := w.live + 1, allocs := rest }, some (fresh os n))
  | false :: rest => ({ w with allocs := rest }, none)

/-- The cast `(WCHAR *)` of a block of bytes: as many 16-bit units as fit. -/
def castWCHAR (block : List Nat) : List Nat := block.take (block.length / sizeofWCHAR)

/-- `GlobalFree`: one live block less. -/
def GlobalFree (w : World) : World := { w with live := w.live - 1 }

/-- The block after the units `written` were stored at its start; a write
that is longer than the block runs past its end and is `none`. -/
def store (buf written : List Nat) : Option (List Nat) :=
  if written.length ≤ buf.length then some (written ++ buf.drop written.length) else none

/-- The calling convention shared by `MultiByteToWideChar` and
`WideCharToMultiByte` when the source length is `-1`: the source is read up
to its terminator; the return value is the number of units of the result,
terminator included, and `0` on failure; with a capacity of `0` nothing is
written (size query), with a capacity that is too small the call fails.
The result is the return value and the units written; `none` when the source
has no terminator. -/
def convertCall (conv : List Nat → Option (List Nat)) (src : List Nat) (cap : Nat) :
    Option (Nat × List Nat) :=
  match cstr src with
  | none => none
  | some s =>
    match conv s with
    | none => some (0, [])
    | some out =>
      if cap = 0 then some (out.length + 1, [])
      else if out.length + 1 ≤ cap then some (out.length + 1, out ++ [0])
      else some (0, [])

def MultiByteToWideChar (os : OS) (cp : Nat) (src : List Nat) (cap : Nat) :
    Option (Nat × List Nat) :=
  convertCall (os.toWide cp) src cap

def WideCharToMultiByte (os : OS) (cp : Nat) (src : List Nat) (cap : Nat) :
    Option (Nat × List Nat) :=
  convertCall (os.toNarrow cp) src cap

def decode_string (os : OS) (w : World) (s : Option (List Nat)) :
    Outcome (World × Option (List Nat)) :=
  match s with
  | none => .ok (w, none)
  | some src =>
    match MultiByteToWideChar os w.codePage src 0 with
    | none => .fault
    | some (size, _) =>
      match GlobalAlloc os w (sizeofWCHAR * size) with
      | (w1, none) => .ok (w1, none)
      | (w1, some block) =>
        match MultiByteToWideChar os w.codePage src size with
        | none => .fault
        | some (_, written) =>
          match store (castWCHAR block) written with
          | some ws => .ok (w1, some ws)
          | none => .fault

def encode_string (os : OS) (w : World) (ws : Option (List Nat)) :
    Outcome (World × Option (List Nat)) :=
  match ws with
  | none => .ok (w, none)
  | some src =>
    match WideCharToMultiByte os w.codePage src 0 with
    | none => .fault
    | some (n, _) =>
      match GlobalAlloc os w n with
      | (w1, none) => .ok (w1, none)
      | (w1, some block) =>
        match WideCharToMultiByte os w.codePage src n with
        | none => .fault
        | some (_, written) =>
          match store block written with
          | some s => .ok (w1, some s)
          | none => .fault

/-! ## Result marshaller -/

/-- `lua_pushstring (l, s)` copies the C string at `s`. -/
def lua_pushstring (stack : List LuaValue) (s : List Nat) : Option (List LuaValue) :=
  (cstr s).map (fun b => stack ++ [.str b])

/-- The result is the state, the stack and the `int` the function returns. -/
def push_encoded_string (os : OS) (w : World) (stack : List LuaValue)
    (ws : Option (List Nat)) : Outcome (World × List LuaValue × Int) :=
  match ws with
  | none => .ok (w, stack ++ [.nil], 1)
  | some p =>
    match encode_string os w (some p) with
    | .ok (w1, some s) =>
      match lua_pushstring stack s with
      | some stack1 => .ok (GlobalFree w1, stack1, 0)
      | none => .fault
    | .ok (w1, none) => .ok (w1, stack ++ [.nil], 1)
    | .error w1 m => .error w1 m
    | .fault => .fault
    | .diverge => .diverge

/-! ## Facade -/

def win32_GetCommandLine (os : OS) (w : World) (stack : List LuaValue) : Outcome Ret :=
  match push_encoded_string os w stack os.GetCommandLineW with
  | .ok (w1, stack1, _) => .ok (w1, stack1, 1)
  | .error w1 m => .error w1 m
  | .fault => .fault
  | .diverge => .diverge

/-- The loop `for (i = 0; i < nArgs; i++) push_encoded_string (l, szArglist[i])`
over the entries that are still to come, with `room` free stack slots left:
the source never calls `lua_checkstack`, so a push with no slot left is
undefined behaviour. -/
def pushArguments (os : OS) :
    Nat → World → List LuaValue → List (List Nat) → Outcome (World × List LuaValue)
  | _, w, stack, [] => .ok (w, stack)
  | 0, _, _, _ :: _ => .fault
  | room + 1, w, stack, arg :: rest =>
    match push_encoded_string os w stack (some arg) with
    | .ok (w1, stack1, _) => pushArguments os room w1 stack1 rest
    | .error w1 m => .error w1 m
    | .fault => .fault
    | .diverge => .diverge

/-- The vector `szArglist` belongs to the tokenizer (`LocalFree` releases it);
it is no codec buffer and is not counted in `World.live`. -/
def win32_GetCommandLineArguments (os : OS) (w : World) (stack : List LuaValue) :
    Outcome Ret :=
  match os.CommandLineToArgvW os.GetCommandLineW with
  | none => .ok (w, stack, 0)
  | some szArglist =>
    match pushArguments os LUA_MINSTACK w stack szArglist with
    | .ok (w1, stack1) => .ok (w1, stack1, szArglist.length)
    | .error w1 m => .error w1 m
    | .fault => .fault
    | .diverge => .diverge

/-- The cast `(int)` of the handle `ShellExecuteW` returns. -/
def toInt32 (r : Nat) : Int :=
  if r % 2 ^ 32 < 2 ^ 31 then (r % 2 ^ 32 : Nat) else (r % 2 ^ 32 : Nat) - 2 ^ 32

/-- One `decode_string (luaL_optstring (l, idx, NULL))`. -/
def decodeArg (os : OS) (w : World) (stack : List LuaValue) (idx : Nat) :
    Outcome (World × List LuaValue × Option (List Nat)) :=
  match luaL_optstring w stack idx with
  | .ok (stack1, s) =>
    match decode_string os w s with
    | .ok (w1, ws) => .ok (w1, stack1, ws)
    | .error w1 m => .error w1 m
    | .fault => .fault
    | .diverge => .diverge
  | .error w1 m => .error w1 m
  | .fault => .fault
  | .diverge => .diverge

def win32_ShellExecute (os : OS) (w : World) (stack : List LuaValue) : Outcome Ret :=
  let showCmd := SW_SHOWNORMAL
  match decodeArg os w stack 1 with
  | .ok (w1, stack1, operation) =>
    match decodeArg os w1 stack1 2 with
    | .ok (w2, stack2, file) =>
      match decodeArg os w2 stack2 3 with
      | .ok (w3, stack3, parameters) =>
        match decodeArg os w3 stack3 4 with
        | .ok (w4, stack4, directory) =>
          let result := toInt32 (os.ShellExecuteW operation file parameters directory showCmd)
          .ok (w4, stack4 ++ [.bool (decide (result ≤ 32))], 1)
        | .error w0 m => .error w0 m
        | .fault => .fault
        | .diverge => .diverge
      | .error w0 m => .error w0 m
      | .fault => .fault
      | .diverge => .diverge
    | .error w0 m => .error w0 m
    | .fault => .fault
    | .diverge => .diverge
  | .error w0 m => .error w0 m
  | .fault => .fault
  | .diverge => .diverge

/-- `luaL_optinteger (l, idx, d)`. -/
def luaL_optinteger (os : OS) (w : World) (stack : List LuaValue) (idx : Nat) (d : Int) :
    Outcome Int :=
  match lua_arg stack idx with
  | none => .ok d
  | some .nil => .ok d
  | some (.int n) => .ok n
  | some v =>
    match os.tointeger v with
    | some n => .ok n
    | none => .error w "number expected"

def win32_MessageBox (os : OS) (w : World) (stack : List LuaValue) : Outcome Ret :=
  match decodeArg os w stack 1 with
  | .ok (w1, stack1, text) =>
    match decodeArg os w1 stack1 2 with
    | .ok (w2, stack2, caption) =>
      match luaL_optinteger os w2 stack2 3 MB_OK with
      | .ok type =>
        let result := os.MessageBoxW text caption (toUINT type)
        .ok (w2, stack2 ++ [.int result], 1)
      | .error w0 m => .error w0 m
      | .fault => .fault
      | .diverge => .diverge
    | .error w0 m => .error w0 m
    | .fault => .fault
    | .diverge => .diverge
  | .error w0 m => .error w0 m
  | .fault => .fault
  | .diverge => .diverge

/-- The multi-select loop of `get_filename`,
`for (p = ofn.lpstrFile;;) { len = wcslen (p); if (len == 0) break;
push_encoded_string (l, p); p += len + 1; }`, with `p` the units from the
pointer on and `room` the free stack slots left (the source never calls
`lua_checkstack`); it returns the slots still free.  Each round moves `p`
forward, so a fuel of one more than the number of units left never runs out;
the buffer has `OPENFILES_MAX_SIZE` units, so `int len` holds every length. -/
def multiSelectLoop (os : OS) :
    Nat → Nat → World → List LuaValue → List Nat → Outcome (World × List LuaValue × Nat)
  | 0, _, _, _, _ => .diverge
  | fuel + 1, room, w, stack, p =>
    match wcslen p with
    | none => .fault
    | some len =>
      if len = 0 then
        .ok (w, stack, room)
      else
        match room with
        | 0 => .fault
        | room1 + 1 =>
          match push_encoded_string os w stack (some p) with
          | .ok (w1, stack1, _) => multiSelectLoop os fuel room1 w1 stack1 (p.drop (len + 1))
          | .error w1 m => .error w1 m
          | .fault => .fault
          | .diverge => .diverge

def get_filename (os : OS) (w : World) (stack : List LuaValue) (isSave : Nat) :
    Outcome Ret :=
  let flags := OFN_LONGNAMES ||| OFN_NOCHANGEDIR ||| OFN_EXPLORER
  let ofn :=
    if isSave ≠ 0 then os.GetSaveFileNameW flags OPENFILES_MAX_SIZE
    else os.GetOpenFileNameW flags OPENFILES_MAX_SIZE
  if ofn.done ≠ 0 then
    if ofn.flags &&& OFN_ALLOWMULTISELECT ≠ 0 then
      match multiSelectLoop os (ofn.file.length + 1) LUA_MINSTACK w stack ofn.file with
      | .ok (w1, stack1, room) =>
        if room = 0 then .fault else .ok (w1, stack1 ++ [.bool true], 1)
      | .error w1 m => .error w1 m
      | .fault => .fault
      | .diverge => .diverge
    else
      match push_encoded_string os w stack (some ofn.file) with
      | .ok (w1, stack1, _) => .ok (w1, stack1 ++ [.bool true], 1)
      | .error w1 m => .error w1 m
      | .fault => .fault
      | .diverge => .diverge
  else
    .ok (w, stack ++ [.bool false], 1)

def win32_GetOpenFileName (os : OS) (w : World) (stack : List LuaValue) : Outcome Ret :=
  get_filename os w stack 0

def win32_GetSaveFileName (os : OS) (w : World) (stack : List LuaValue) : Outcome Ret :=
  get_filename os w stack 1

/-! ## A test double for the operating system -/

/-- An operating system whose conversions copy the units (the code pages
agree with UTF-16 on ASCII), whose `ShellExecuteW` returns `r` and whose
file dialogs answer `dlg`. -/
def asciiOS (r : Nat) (dlg : DialogResult) (argv : Option (List (List Nat))) : OS where
  toWide := fun _ s => some s
  toNarrow := fun _ s => some s
  junk := 0xCD
  ShellExecuteW := fun _ _ _ _ _ => r
  MessageBoxW := fun _ _ _ => 1
  GetOpenFileNameW := fun _ _ => dlg
  GetSaveFileNameW := fun _ _ => dlg
  GetCommandLineW := some [0]
  CommandLineToArgvW := fun _ => argv
  tointeger := fun _ => none

/-! ## Notions used by the statements -/

/-- The six preset names of `SetCodePage`. -/
def presetNames : List (List Nat) :=
  [bytes "default", bytes "console", bytes "utf-8", bytes "ansi", bytes "oem", bytes "symbol"]

/-- What C code sees of a Lua string: the bytes before its first zero byte. -/
def cview (b : List Nat) : List Nat := b.takeWhile (fun u => decide (u ≠ 0))

/-- The first argument is absent, nil, a boolean, or a table-like value. -/
def notNumberNorString : Option LuaValue → Prop
  | none => True
  | some .nil => True
  | some (.bool _) => True
  | some (.other _) => True
  | _ => False

/-- The next `k` calls of `GlobalAlloc` succeed. -/
def allocsSucceed (k : Nat) (w : World) : Prop := ∀ b ∈ w.allocs.take k, b = true

/-- The next call of `GlobalAlloc` fails. -/
def allocFails (w : World) : Prop := w.allocs.head? = some false

/-- The state after one successful `GlobalAlloc`. -/
def afterAlloc (w : World) : World := { w with live := w.live + 1, allocs := w.allocs.tail }

/-- The state after one `GlobalAlloc`, successful or not, whose block is gone. -/
def afterCall (w : World) : World := { w with allocs := w.allocs.tail }

/-- The state after `k` calls of `GlobalAlloc` whose blocks are gone. -/
def afterCalls : Nat → World → World
  | 0, w => w
  | k + 1, w => afterCalls k (afterCall w)

/-- The Lua value that encodes the wide string at a pointer under code page
`cp`: the narrow string the conversion yields, as `lua_pushstring` reads it. -/
def encodedValue (os : OS) (cp : Nat) (p : List Nat) : LuaValue :=
  match cstr p with
  | none => .nil
  | some s =>
    match os.toNarrow cp s with
    | none => .nil
    | some out => .str (cview out)

/-- What `push_encoded_string` hands to Lua for an encodable wide string: its
encoding when the narrow buffer is allocated, nil when it is not. -/
def pushedValue (os : OS) (cp : Nat) (allocated : Bool) (p : List Nat) : LuaValue :=
  if allocated then encodedValue os cp p else .nil

/-- The values pushed for a sequence of wide strings, the `i`-th allocation
outcome of the script deciding between the encoding and nil for the `i`-th
string (a used-up script means success). -/
def pushedValues (os : OS) (cp : Nat) : List Bool → List (List Nat) → List LuaValue
  | _, [] => []
  | allocs, p :: rest =>
    pushedValue os cp (allocs.head?.getD true) p :: pushedValues os cp allocs.tail rest

/-- The wide string at the pointer is terminated and the conversion to the
code page `cp` succeeds on it. -/
def encodable (os : OS) (cp : Nat) (p : List Nat) : Prop :=
  ∃ s out, cstr p = some s ∧ os.toNarrow cp s = some out

/-- The units of a multi-select buffer: every segment followed by one zero
unit, then one more zero unit. -/
def multiBuffer (segs : List (List Nat)) : List Nat :=
  (segs.map (fun s => s ++ [0])).flatten ++ [0]

/-- An operating system whose conversions fail on every input, as they do
under a code page identifier that names no code page. -/
def noConversionOS : OS :=
  { asciiOS 0 ⟨0, [], 0⟩ none with toWide := fun _ _ => none, toNarrow := fun _ _ => none }

/-- The operating system of `noConversionOS` with a tokenizer that answers
`argv`. -/
def noConversionArgvOS (argv : Option (List (List Nat))) : OS :=
  { asciiOS 0 ⟨0, [], 0⟩ argv with toWide := fun _ _ => none, toNarrow := fun _ _ => none }

end Win32

namespace Win32

/-! ## Lemmas on C strings -/

theorem cstr_cview (b rest : List Nat) : cstr (b ++ 0 :: rest) = some (cview b) := by
  induction b with
  | nil => simp [cstr, cview]
  | cons u t ih =>
    by_cases hu : u = 0
    · subst hu; simp [cstr, cview]
    · simp [cstr, cview, hu] at ih ⊢
      exact ih

theorem cview_of_nonzero (b : List Nat) (h : ∀ u ∈ b, u ≠ 0) : cview b = b := by
  unfold cview
  rw [List.takeWhile_eq_self_iff]
  intro u hu
  simpa using h u hu

theorem cstr_terminated (s rest : List Nat) (h : ∀ u ∈ s, u ≠ 0) :
    cstr (s ++ 0 :: rest) = some s := by
  rw [cstr_cview, cview_of_nonzero s h]

/-! ## Code page registry -/

theorem findOption_names_of_not_preset (c : List Nat) (rest : List Nat)
    (b : List Nat) (hc : cview b = c) (h : c ∉ presetNames) :
    findOption (b ++ 0 :: rest) win32_code_page_names 0 = none := by
  have hb : cstr (b ++ 0 :: rest) = some c := by rw [cstr_cview, hc]
  simp only [presetNames, List.mem_cons, List.mem_singleton, not_or, List.not_mem_nil] at h
  obtain ⟨h1, h2, h3, h4, h5, h6, -⟩ := h
  have e1 : cstr (bytes "default" ++ [0]) = some (bytes "default") := by decide
  have e2 : cstr (bytes "console" ++ [0]) = some (bytes "console") := by decide
  have e3 : cstr (bytes "utf-8" ++ [0]) = some (bytes "utf-8") := by decide
  have e4 : cstr (bytes "ansi" ++ [0]) = some (bytes "ansi") := by decide
  have e5 : cstr (bytes "oem" ++ [0]) = some (bytes "oem") := by decide
  have e6 : cstr (bytes "symbol" ++ [0]) = some (bytes "symbol") := by decide
  simp only [win32_code_page_names, findOption, strcmpEq, hb, e1, e2, e3, e4, e5, e6]
  simp [Ne.symm h1, Ne.symm h2, Ne.symm h3, Ne.symm h4, Ne.symm h5, Ne.symm h6]

theorem findOption_lt (name : List Nat) (lst : List (List Nat)) (k i : Nat)
    (h : findOption name lst k = some i) : i < k + lst.length := by
  induction lst generalizing k with
  | nil => simp [findOption] at h
  | cons o rest ih =>
    simp only [findOption] at h
    split at h
    · simp only [Option.some.injEq] at h
      simp only [List.length_cons]
      omega
    · have := ih (k + 1) h
      simp only [List.length_cons]
      omega

theorem luaL_checkoption_lt (w : World) (stack st : List LuaValue) (idx : Nat)
    (lst : List (List Nat)) (i : Nat) (h : luaL_checkoption w stack idx lst = .ok (st, i)) :
    i < lst.length := by
  unfold luaL_checkoption at h
  split at h
  · split at h
    · rename_i j hj
      simp only [Outcome.ok.injEq, Prod.mk.injEq] at h
      obtain ⟨-, rfl⟩ := h
      simpa using findOption_lt _ _ _ _ hj
    · simp at h
  all_goals simp at h

theorem luaL_checkoption_ne_fault (w : World) (stack : List LuaValue) (idx : Nat)
    (lst : List (List Nat)) :
    luaL_checkoption w stack idx lst ≠ .fault ∧ luaL_checkoption w stack idx lst ≠ .diverge := by
  unfold luaL_checkoption luaL_checkstring
  constructor <;>
  · split
    · split <;> simp
    all_goals
      rename_i hcs
      split at hcs <;> simp at hcs <;> simp

theorem get_code_page_arg_ne_fault (w : World) (stack : List LuaValue) (d : Nat) :
    get_code_page_arg w stack 1 d ≠ .fault := by
  unfold get_code_page_arg
  split
  · simp
  · split
    · split
      · rename_i st opt hopt
        have hlt := luaL_checkoption_lt _ _ _ _ _ _ hopt
        split
        · simp
        · have hlen : opt < win32_code_pages.length := by
            simpa [win32_code_page_names, win32_code_pages] using hlt
          rw [List.get?_eq_get hlen]
          simp
      · simp
      · rename_i hf
        exact absurd hf (luaL_checkoption_ne_fault _ _ _ _).1
      · rename_i hf
        exact absurd hf (luaL_checkoption_ne_fault _ _ _ _).2
    · simp

/-- C3 (as the code has it): `SetCodePage` with a string argument raises the
invalid-option error, and leaves the stored code page as it was, whenever the
bytes of the string before its first zero byte are not one of the six preset
names; this covers every string without a zero byte that is not a preset
name. -/
theorem C3_SetCodePage_rejects_unknown_name (w : World) (b : List Nat)
    (rest : List LuaValue) (h : cview b ∉ presetNames) :
    win32_SetCodePage w (.str b :: rest) = .error w "invalid option" ∧
      ((∀ u ∈ b, u ≠ 0) → b ∉ presetNames →
        win32_SetCodePage w (.str b :: rest) = .error w "invalid option") := by
  have key : ∀ c : List Nat, cview c ∉ presetNames →
      win32_SetCodePage w (.str c :: rest) = .error w "invalid option" := by
    intro c hc
    have hfind := findOption_names_of_not_preset (cview c) [] c rfl hc
    simp [win32_SetCodePage, get_code_page_arg, lua_isinteger, lua_isstring, lua_arg,
      luaL_checkoption, luaL_checkstring, lua_tolstring, hfind]
  refine ⟨key b h, ?_⟩
  intro hz hb
  apply key
  rwa [cview_of_nonzero b hz]

/-- Witness of C3: the name `bogus`. -/
theorem C3_SetCodePage_rejects_unknown_name_witness :
    cview (bytes "bogus") ∉ presetNames ∧
      win32_SetCodePage ⟨437, 850, 0, []⟩ [.str (bytes "bogus")]
        = .error ⟨437, 850, 0, []⟩ "invalid option" :=
  ⟨by decide,
   (C3_SetCodePage_rejects_unknown_name ⟨437, 850, 0, []⟩ (bytes "bogus") [] (by decide)).1⟩

/-- C3 as stated fails: the string made of `ansi`, a zero byte and `x` is not
one of the six preset names, yet `SetCodePage` accepts it without an error
and changes the stored code page from 65001 to 0. -/
theorem C3_counterexample_embedded_zero :
    bytes "ansi" ++ [0] ++ bytes "x" ∉ presetNames ∧
      win32_SetCodePage ⟨65001, 850, 0, []⟩ [.str (bytes "ansi" ++ [0] ++ bytes "x")]
        = .ok (⟨0, 850, 0, []⟩, [.str (bytes "ansi" ++ [0] ++ bytes "x")], 0) := by
  decide

theorem toUINT_cast (n : Int) : ((toUINT n : Nat) : Int) = n % 2 ^ 32 := by
  unfold toUINT
  exact Int.toNat_of_nonneg (Int.emod_nonneg n (by norm_num))

/-- C4: a `GetCodePage` call made right after an accepted `SetCodePage (v)`
returns the identifier `v` resolves to: `n` modulo `2 ^ 32` for an integer
`n`, 65001 for `default` and `utf-8`, 0 for `ansi`, 1 for `oem`, 42 for
`symbol`, and for `console` the console code page at the time of that
`SetCodePage` call, so that two such calls store the same value exactly when
the console code pages agree; `GetCodePage` leaves the state as it is. -/
theorem C4_GetCodePage_after_SetCodePage (w : World) (rest st : List LuaValue) :
    (∀ n : Int, ∃ w1, win32_SetCodePage w (.int n :: rest) = .ok (w1, .int n :: rest, 0) ∧
        win32_GetCodePage w1 st = .ok (w1, st ++ [.int (n % 2 ^ 32)], 1)) ∧
    (∀ name id, (name, id) ∈ [(bytes "default", (65001 : Int)), (bytes "utf-8", 65001),
          (bytes "ansi", 0), (bytes "oem", 1), (bytes "symbol", 42),
          (bytes "console", (w.consoleCP : Int))] →
      ∃ w1, win32_SetCodePage w (.str name :: rest) = .ok (w1, .str name :: rest, 0) ∧
        win32_GetCodePage w1 st = .ok (w1, st ++ [.int id], 1)) ∧
    (∀ w2 : World, ∃ a b,
      win32_SetCodePage w (.str (bytes "console") :: rest) = .ok (a, .str (bytes "console") :: rest, 0) ∧
      win32_SetCodePage w2 (.str (bytes "console") :: rest) = .ok (b, .str (bytes "console") :: rest, 0) ∧
      (a.codePage = b.codePage ↔ w.consoleCP = w2.consoleCP)) ∧
    (∃ v, win32_GetCodePage w st = .ok (w, st ++ [v], 1)) := by
  refine ⟨?_, ?_, ?_, ?_⟩
  · intro n
    refine ⟨{ w with codePage := toUINT n }, ?_, ?_⟩
    · simp [win32_SetCodePage, get_code_page_arg, lua_isinteger, lua_arg, lua_tointeger]
    · simp [win32_GetCodePage, toUINT_cast]
  · intro name id hmem
    have hd : findOption (bytes "default" ++ [0]) win32_code_page_names 0 = some 0 := by decide
    have hu : findOption (bytes "utf-8" ++ [0]) win32_code_page_names 0 = some 2 := by decide
    have ha : findOption (bytes "ansi" ++ [0]) win32_code_page_names 0 = some 3 := by decide
    have ho : findOption (bytes "oem" ++ [0]) win32_code_page_names 0 = some 4 := by decide
    have hs : findOption (bytes "symbol" ++ [0]) win32_code_page_names 0 = some 5 := by decide
    have hc : findOption (bytes "console" ++ [0]) win32_code_page_names 0 = some 1 := by decide
    simp only [List.mem_cons, Prod.mk.injEq, List.mem_singleton, List.not_mem_nil, or_false] at hmem
    rcases hmem with ⟨rfl, rfl⟩ | ⟨rfl, rfl⟩ | ⟨rfl, rfl⟩ | ⟨rfl, rfl⟩ | ⟨rfl, rfl⟩ | ⟨rfl, rfl⟩
    · exact ⟨{ w with codePage := 65001 }, by
        simp [win32_SetCodePage, get_code_page_arg, lua_isinteger, lua_isstring, lua_arg,
          luaL_checkoption, luaL_checkstring, lua_tolstring, hd, win32_code_pages,
          LUA_WIN32_DEFAULT_CODE_PAGE, CP_UTF8], by simp [win32_GetCodePage]⟩
    · exact ⟨{ w with codePage := 65001 }, by
        simp [win32_SetCodePage, get_code_page_arg, lua_isinteger, lua_isstring, lua_arg,
          luaL_checkoption, luaL_checkstring, lua_tolstring, hu, win32_code_pages,
          LUA_WIN32_DEFAULT_CODE_PAGE, CP_UTF8], by simp [win32_GetCodePage]⟩
    · exact ⟨{ w with codePage := 0 }, by
        simp [win32_SetCodePage, get_code_page_arg, lua_isinteger, lua_isstring, lua_arg,
          luaL_checkoption, luaL_checkstring, lua_tolstring, ha, win32_code_pages, CP_ACP],
        by simp [win32_GetCodePage]⟩
    · exact ⟨{ w with codePage := 1 }, by
        simp [win32_SetCodePage, get_code_page_arg, lua_isinteger, lua_isstring, lua_arg,
          luaL_checkoption, luaL_checkstring, lua_tolstring, ho, win32_code_pages, CP_OEMCP],
        by simp [win32_GetCodePage]⟩
    · exact ⟨{ w with codePage := 42 }, by
        simp [win32_SetCodePage, get_code_page_arg, lua_isinteger, lua_isstring, lua_arg,
          luaL_checkoption, luaL_checkstring, lua_tolstring, hs, win32_code_pages, CP_SYMBOL],
        by simp [win32_GetCodePage]⟩
    · exact ⟨{ w with codePage := w.consoleCP }, by
        simp [win32_SetCodePage, get_code_page_arg, lua_isinteger, lua_isstring, lua_arg,
          luaL_checkoption, luaL_checkstring, lua_tolstring, hc, GetConsoleOutputCP],
        by simp [win32_GetCodePage]⟩
  · intro w2
    have hc : findOption (bytes "console" ++ [0]) win32_code_page_names 0 = some 1 := by decide
    refine ⟨{ w with codePage := w.consoleCP }, { w2 with codePage := w2.consoleCP }, ?_, ?_, ?_⟩
    · simp [win32_SetCodePage, get_code_page_arg, lua_isinteger, lua_isstring, lua_arg,
        luaL_checkoption, luaL_checkstring, lua_tolstring, hc, GetConsoleOutputCP]
    · simp [win32_SetCodePage, get_code_page_arg, lua_isinteger, lua_isstring, lua_arg,
        luaL_checkoption, luaL_checkstring, lua_tolstring, hc, GetConsoleOutputCP]
    · simp
  · exact ⟨.int w.codePage, by simp [win32_GetCodePage]⟩

/-- Witness of C4: from code page 437 with the console at 850, the names
`oem` and `console` and the integer `-1`. -/
theorem C4_GetCodePage_after_SetCodePage_witness :
    (∃ w1, win32_SetCodePage ⟨437, 850, 0, []⟩ [.str (bytes "console")]
        = .ok (w1, [.str (bytes "console")], 0) ∧
      win32_GetCodePage w1 [] = .ok (w1, [.int 850], 1)) ∧
    (∃ w1, win32_SetCodePage ⟨437, 850, 0, []⟩ [.int (-1)] = .ok (w1, [.int (-1)], 0) ∧
      win32_GetCodePage w1 [] = .ok (w1, [.int 4294967295], 1)) :=
  ⟨(C4_GetCodePage_after_SetCodePage ⟨437, 850, 0, []⟩ [] []).2.1 (bytes "console") 850
      (by decide),
   (C4_GetCodePage_after_SetCodePage ⟨437, 850, 0, []⟩ [] []).1 (-1)⟩

/-- C10: when the first argument of `SetCodePage` is absent or is neither a
number nor a string, no error is raised and the stored code page becomes
65001 whatever it was; and whenever the option lookup returns, its index is
below six, so that reading the six-entry table never leaves it. -/
theorem C10_SetCodePage_default_and_bounds (w : World) (stack : List LuaValue)
    (h : notNumberNorString (lua_arg stack 1)) :
    win32_SetCodePage w stack = .ok ({ w with codePage := 65001 }, stack, 0) ∧
    (∀ (w2 : World) (stack2 st : List LuaValue) (i : Nat),
      luaL_checkoption w2 stack2 1 win32_code_page_names = .ok (st, i) →
        i < 6 ∧ win32_code_pages.length = 6 ∧ (win32_code_pages.get? i).isSome = true) ∧
    (∀ (w2 : World) (stack2 : List LuaValue),
      get_code_page_arg w2 stack2 1 LUA_WIN32_DEFAULT_CODE_PAGE ≠ .fault) := by
  refine ⟨?_, ?_, ?_⟩
  · cases harg : lua_arg stack 1 with
    | none =>
      simp [win32_SetCodePage, get_code_page_arg, lua_isinteger, lua_isstring, harg,
        LUA_WIN32_DEFAULT_CODE_PAGE, CP_UTF8]
    | some v =>
      rw [harg] at h
      cases v <;>
        simp_all [win32_SetCodePage, get_code_page_arg, lua_isinteger, lua_isstring,
          notNumberNorString, LUA_WIN32_DEFAULT_CODE_PAGE, CP_UTF8]
  · intro w2 stack2 st i hi
    have hlt := luaL_checkoption_lt _ _ _ _ _ _ hi
    have h6 : i < 6 := by simpa [win32_code_page_names] using hlt
    refine ⟨h6, by simp [win32_code_pages], ?_⟩
    have hlen : i < win32_code_pages.length := by simpa [win32_code_pages] using h6
    rw [List.get?_eq_get hlen]
    simp
  · intro w2 stack2
    exact get_code_page_arg_ne_fault w2 stack2 _

/-- Witness of C10: `SetCodePage (true)` from code page 437. -/
theorem C10_SetCodePage_default_and_bounds_witness :
    notNumberNorString (lua_arg [.bool true] 1) ∧
      win32_SetCodePage ⟨437, 850, 0, []⟩ [.bool true]
        = .ok (⟨65001, 850, 0, []⟩, [.bool true], 0) :=
  ⟨by simp [notNumberNorString, lua_arg],
   (C10_SetCodePage_default_and_bounds ⟨437, 850, 0, []⟩ [.bool true]
      (by simp [notNumberNorString, lua_arg])).1⟩

/-! ## ShellExecute, the file dialogs and the buffers of the facade -/

/-- C1, the code at the boundary: without arguments `ShellExecute` returns
`true` exactly when the operating system result, cast to `int`, is at most
32; with the file argument `a`, a result of 32 makes it return `true` and a
result of 33 makes it return `false`, the reverse of the rule `r > 32`. -/
theorem C1_ShellExecute_boundary_values :
    (∀ (r : Nat) (w : World), win32_ShellExecute (asciiOS r ⟨0, [], 0⟩ none) w []
        = .ok (w, [.bool (decide (toInt32 r ≤ 32))], 1)) ∧
    (∃ w1 st n, win32_ShellExecute (asciiOS 32 ⟨0, [], 0⟩ none) ⟨65001, 437, 0, []⟩
        [.nil, .str (bytes "a")] = .ok (w1, st, n) ∧ luaResults st n = [.bool true]) ∧
    (∃ w1 st n, win32_ShellExecute (asciiOS 33 ⟨0, [], 0⟩ none) ⟨65001, 437, 0, []⟩
        [.nil, .str (bytes "a")] = .ok (w1, st, n) ∧ luaResults st n = [.bool false]) :=
  ⟨fun r w => by
      simp [win32_ShellExecute, decodeArg, luaL_optstring, lua_arg, decode_string, asciiOS],
   ⟨⟨65001, 437, 1, []⟩, [.nil, .str (bytes "a"), .bool true], 1, by decide, by decide⟩,
   ⟨⟨65001, 437, 1, []⟩, [.nil, .str (bytes "a"), .bool false], 1, by decide, by decide⟩⟩

/-- C2, the code on a successful dialog: when the open or the save dialog
succeeds with the file name `a`, the name is pushed but the result count is
one, so the caller receives the single value `true`. -/
theorem C2_get_filename_returns_one_value :
    (∃ w1 st n, win32_GetOpenFileName (asciiOS 0 ⟨1, [97, 0, 7, 7], 0x280008⟩ none)
        ⟨65001, 437, 0, []⟩ [] = .ok (w1, st, n) ∧
      st = [.str [97], .bool true] ∧ n = 1 ∧ luaResults st n = [.bool true]) ∧
    (∃ w1 st n, win32_GetSaveFileName (asciiOS 0 ⟨1, [97, 0, 7, 7], 0x280008⟩ none)
        ⟨65001, 437, 0, []⟩ [] = .ok (w1, st, n) ∧
      st = [.str [97], .bool true] ∧ n = 1 ∧ luaResults st n = [.bool true]) :=
  ⟨⟨⟨65001, 437, 0, []⟩, [.str [97], .bool true], 1, by decide, rfl, rfl, by decide⟩,
   ⟨⟨65001, 437, 0, []⟩, [.str [97], .bool true], 1, by decide, rfl, rfl, by decide⟩⟩

/-- C8, the code on decoded arguments: `ShellExecute ("open", "a")` ends with
two live codec buffers more than it started with, and `MessageBox ("hi")`
with one more: the buffers of `decode_string` are never released. -/
theorem C8_decoded_buffers_stay_live :
    (∃ w1 st n, win32_ShellExecute (asciiOS 33 ⟨0, [], 0⟩ none) ⟨65001, 437, 0, []⟩
        [.str (bytes "open"), .str (bytes "a")] = .ok (w1, st, n) ∧ w1.live = 2) ∧
    (∃ w1 st n, win32_MessageBox (asciiOS 33 ⟨0, [], 0⟩ none) ⟨65001, 437, 0, []⟩
        [.str (bytes "hi")] = .ok (w1, st, n) ∧ w1.live = 1) :=
  ⟨⟨⟨65001, 437, 2, []⟩, [.str (bytes "open"), .str (bytes "a"), .bool false], 1,
      by decide, rfl⟩,
   ⟨⟨65001, 437, 1, []⟩, [.str (bytes "hi"), .int 1], 1, by decide, rfl⟩⟩

/-! ## String codec and result marshaller -/

theorem GlobalAlloc_cases (os : OS) (w : World) (n : Nat) :
    (GlobalAlloc os w n = (afterAlloc w, some (fresh os n)) ∧ ¬ allocFails w) ∨
      (GlobalAlloc os w n = (afterCall w, none) ∧ allocFails w) := by
  cases ha : w.allocs with
  | nil => left; simp [GlobalAlloc, afterAlloc, allocFails, ha]
  | cons b rest =>
    cases b
    · right; simp [GlobalAlloc, afterCall, allocFails, ha]
    · left; simp [GlobalAlloc, afterAlloc, allocFails, ha]

theorem GlobalAlloc_ok (os : OS) (w : World) (n : Nat) (h : ¬ allocFails w) :
    GlobalAlloc os w n = (afterAlloc w, some (fresh os n)) := by
  rcases GlobalAlloc_cases os w n with ⟨ha, -⟩ | ⟨-, hf⟩
  · exact ha
  · exact absurd hf h

theorem GlobalAlloc_failed (os : OS) (w : World) (n : Nat) (h : allocFails w) :
    GlobalAlloc os w n = (afterCall w, none) := by
  rcases GlobalAlloc_cases os w n with ⟨-, hn⟩ | ⟨ha, -⟩
  · exact absurd h hn
  · exact ha

theorem allocsSucceed_step (w : World) (k : Nat) (h : allocsSucceed (k + 1) w) :
    ¬ allocFails w ∧ allocsSucceed k (afterAlloc w) ∧ allocsSucceed k (afterCall w) := by
  unfold allocsSucceed at h
  cases ha : w.allocs with
  | nil => simp [afterAlloc, afterCall, allocsSucceed, allocFails, ha]
  | cons b rest =>
    rw [ha] at h
    have hb : b = true := h b (by simp)
    subst hb
    have hrest : ∀ c ∈ rest.take k, c = true := by
      intro c hc
      apply h c
      simp [List.take_succ_cons, hc]
    exact ⟨by simp [allocFails, ha], by simpa [allocsSucceed, afterAlloc, ha] using hrest,
      by simpa [allocsSucceed, afterCall, ha] using hrest⟩

theorem store_fresh (os : OS) (out : List Nat) :
    store (fresh os (out.length + 1)) (out ++ [0]) = some (out ++ [0]) := by
  simp [store, fresh]

theorem castWCHAR_fresh (os : OS) (n : Nat) :
    castWCHAR (fresh os (sizeofWCHAR * n)) = fresh os n := by
  simp only [castWCHAR, fresh, sizeofWCHAR, List.length_replicate, List.take_replicate]
  congr 1
  omega

theorem store_length (buf written out : List Nat) (h : store buf written = some out) :
    out.length = buf.length := by
  unfold store at h
  split at h
  · simp only [Option.some.injEq] at h
    subst h
    simp only [List.length_append, List.length_drop]
    omega
  · simp at h

theorem convertCall_query (conv : List Nat → Option (List Nat)) (src s out : List Nat)
    (hs : cstr src = some s) (hc : conv s = some out) :
    convertCall conv src 0 = some (out.length + 1, []) := by
  simp [convertCall, hs, hc]

theorem convertCall_fill (conv : List Nat → Option (List Nat)) (src s out : List Nat)
    (hs : cstr src = some s) (hc : conv s = some out) :
    convertCall conv src (out.length + 1) = some (out.length + 1, out ++ [0]) := by
  simp [convertCall, hs, hc]

theorem convertCall_failed (conv : List Nat → Option (List Nat)) (src s : List Nat)
    (cap : Nat) (hs : cstr src = some s) (hc : conv s = none) :
    convertCall conv src cap = some (0, []) := by
  simp [convertCall, hs, hc]

theorem convertCall_congr (conv : List Nat → Option (List Nat)) (p q : List Nat) (cap : Nat)
    (h : cstr p = cstr q) : convertCall conv p cap = convertCall conv q cap := by
  simp [convertCall, h]

theorem encode_string_congr (os : OS) (w : World) (p q : List Nat) (h : cstr p = cstr q) :
    encode_string os w (some p) = encode_string os w (some q) := by
  simp only [encode_string, WideCharToMultiByte, convertCall_congr _ p q _ h]

theorem push_encoded_string_congr (os : OS) (w : World) (stack : List LuaValue)
    (p q : List Nat) (h : cstr p = cstr q) :
    push_encoded_string os w stack (some p) = push_encoded_string os w stack (some q) := by
  simp only [push_encoded_string, encode_string_congr os w p q h]

theorem encode_string_ok (os : OS) (w : World) (src s out : List Nat)
    (hs : cstr src = some s) (hc : os.toNarrow w.codePage s = some out)
    (ha : ¬ allocFails w) :
    encode_string os w (some src) = .ok (afterAlloc w, some (out ++ [0])) := by
  simp [encode_string, WideCharToMultiByte, convertCall_query _ _ _ _ hs hc,
    convertCall_fill _ _ _ _ hs hc, GlobalAlloc_ok os w _ ha, store_fresh]

theorem decode_string_ok (os : OS) (w : World) (src s out : List Nat)
    (hs : cstr src = some s) (hc : os.toWide w.codePage s = some out)
    (ha : ¬ allocFails w) :
    decode_string os w (some src) = .ok (afterAlloc w, some (out ++ [0])) := by
  simp [decode_string, MultiByteToWideChar, convertCall_query _ _ _ _ hs hc,
    convertCall_fill _ _ _ _ hs hc, GlobalAlloc_ok os w _ ha, castWCHAR_fresh, store_fresh]

theorem encode_string_alloc_failed (os : OS) (w : World) (src s : List Nat)
    (hs : cstr src = some s) (ha : allocFails w) :
    encode_string os w (some src) = .ok (afterCall w, none) := by
  cases hc : os.toNarrow w.codePage s with
  | none =>
    simp [encode_string, WideCharToMultiByte, convertCall_failed _ _ _ _ hs hc,
      GlobalAlloc_failed os w _ ha]
  | some out =>
    simp [encode_string, WideCharToMultiByte, convertCall_query _ _ _ _ hs hc,
      GlobalAlloc_failed os w _ ha]

theorem push_encoded_string_ok (os : OS) (w : World) (stack : List LuaValue)
    (p : List Nat) (he : encodable os w.codePage p) (ha : ¬ allocFails w) :
    push_encoded_string os w stack (some p)
      = .ok (afterCall w, stack ++ [encodedValue os w.codePage p], 0) := by
  obtain ⟨s, out, hs, hc⟩ := he
  have hfree : GlobalFree (afterAlloc w) = afterCall w := by
    simp [GlobalFree, afterAlloc, afterCall]
  simp [push_encoded_string, encode_string_ok os w p s out hs hc ha, lua_pushstring,
    cstr_cview, encodedValue, hs, hc, hfree]

theorem push_encoded_string_alloc_failed (os : OS) (w : World) (stack : List LuaValue)
    (p s : List Nat) (hs : cstr p = some s) (ha : allocFails w) :
    push_encoded_string os w stack (some p) = .ok (afterCall w, stack ++ [.nil], 1) := by
  simp [push_encoded_string, encode_string_alloc_failed os w p s hs ha]

/-- C9 (as the code has it): for a null input, and for a terminated wide
string on which the conversion succeeds or for which the narrow buffer cannot
be allocated, `push_encoded_string` returns and pushes exactly one value.  It
pushes nil and returns 1 exactly when the input is null or the allocation
fails; otherwise it pushes the encoded narrow string and returns 0.  No live
buffer is left behind and the code page is untouched. -/
theorem C9_push_encoded_string_cases (os : OS) (w : World) (stack : List LuaValue)
    (ws : Option (List Nat))
    (h : ∀ p, ws = some p → encodable os w.codePage p ∨ ((cstr p).isSome = true ∧ allocFails w)) :
    ∃ w1 v r, push_encoded_string os w stack ws = .ok (w1, stack ++ [v], r) ∧
      w1.live = w.live ∧ w1.codePage = w.codePage ∧
      ((v = .nil ∧ r = 1 ∧ (ws = none ∨ allocFails w)) ∨
       (r = 0 ∧ ¬ allocFails w ∧
          ∃ p, ws = some p ∧ encodable os w.codePage p ∧ v = encodedValue os w.codePage p ∧
            ∃ b, v = .str b)) := by
  cases ws with
  | none =>
    exact ⟨w, .nil, 1, by simp [push_encoded_string], rfl, rfl, Or.inl ⟨rfl, rfl, Or.inl rfl⟩⟩
  | some p =>
    by_cases hf : allocFails w
    · have hterm : ∃ s, cstr p = some s := by
        rcases h p rfl with ⟨s, _, hs, _⟩ | ⟨hs, -⟩
        · exact ⟨s, hs⟩
        · exact Option.isSome_iff_exists.mp hs
      obtain ⟨s, hs⟩ := hterm
      exact ⟨afterCall w, .nil, 1, push_encoded_string_alloc_failed os w stack p s hs hf,
        rfl, rfl, Or.inl ⟨rfl, rfl, Or.inr hf⟩⟩
    · rcases h p rfl with he | ⟨-, hf2⟩
      · refine ⟨afterCall w, encodedValue os w.codePage p, 0,
          push_encoded_string_ok os w stack p he hf, rfl, rfl, Or.inr ⟨rfl, hf, p, rfl, he, rfl, ?_⟩⟩
        obtain ⟨s, out, hs, hc⟩ := he
        exact ⟨cview out, by simp [encodedValue, hs, hc]⟩
      · exact absurd hf2 hf

/-- Witness of C9: the wide string `a` with a successful allocation. -/
theorem C9_push_encoded_string_cases_witness :
    (∀ p, some [97, 0] = some p →
      encodable (asciiOS 0 ⟨0, [], 0⟩ none) 65001 p ∨
        ((cstr p).isSome = true ∧ allocFails ⟨65001, 437, 0, [true]⟩)) ∧
    ∃ w1 v r, push_encoded_string (asciiOS 0 ⟨0, [], 0⟩ none) ⟨65001, 437, 0, [true]⟩ []
        (some [97, 0]) = .ok (w1, [] ++ [v], r) ∧
      w1.live = 0 ∧ w1.codePage = 65001 ∧
      ((v = .nil ∧ r = 1 ∧ ((some [97, 0] : Option (List Nat)) = none ∨
          allocFails ⟨65001, 437, 0, [true]⟩)) ∨
       (r = 0 ∧ ¬ allocFails ⟨65001, 437, 0, [true]⟩ ∧
          ∃ p, some [97, 0] = some p ∧ encodable (asciiOS 0 ⟨0, [], 0⟩ none) 65001 p ∧
            v = encodedValue (asciiOS 0 ⟨0, [], 0⟩ none) 65001 p ∧ ∃ b, v = .str b)) :=
  have h : ∀ p, some [97, 0] = some p →
      encodable (asciiOS 0 ⟨0, [], 0⟩ none) 65001 p ∨
        ((cstr p).isSome = true ∧ allocFails ⟨65001, 437, 0, [true]⟩) := by
    intro p hp
    simp only [Option.some.injEq] at hp
    subst hp
    exact Or.inl ⟨[97], [97], by decide, rfl⟩
  ⟨h, C9_push_encoded_string_cases (asciiOS 0 ⟨0, [], 0⟩ none) ⟨65001, 437, 0, [true]⟩ []
    (some [97, 0]) h⟩

/-- C9 as stated fails: when a string is pushed the function returns 0, which
as a flag is false; and under a code page on which the conversion fails the
size query reports 0 bytes, the zero-byte buffer is allocated, and
`push_encoded_string` goes on to read a string from it instead of pushing nil
and returning 1. -/
theorem C9_counterexample_zero_size_query :
    push_encoded_string (asciiOS 0 ⟨0, [], 0⟩ none) ⟨65001, 437, 0, []⟩ [] (some [97, 0])
        = .ok (⟨65001, 437, 0, []⟩, [.str [97]], 0) ∧
      WideCharToMultiByte noConversionOS 12345 [97, 0] 0 = some (0, []) ∧
      encode_string noConversionOS ⟨12345, 437, 0, []⟩ (some [97, 0])
        = .ok (⟨12345, 437, 1, []⟩, some []) ∧
      push_encoded_string noConversionOS ⟨12345, 437, 0, []⟩ [] (some [97, 0]) = .fault ∧
      push_encoded_string noConversionOS ⟨12345, 437, 0, []⟩ [] (some [97, 0])
        ≠ .ok (⟨12345, 437, 0, []⟩, [.nil], 1) := by
  decide

/-- C6: for every code page and every narrow string `S` without a zero byte
that the conversions take to `W` and back, when both allocations succeed:
`decode_string` asks `GlobalAlloc` for a block of exactly as many wide units
as the size query reported and returns that block holding `W` and its
terminator and nothing else; `encode_string` of it asks for a block of
exactly as many bytes as its size query reported and returns that block
holding `S` and its terminator and nothing else. -/
theorem C6_encode_decode_roundtrip (os : OS) (w : World) (S W : List Nat)
    (hS : ∀ u ∈ S, u ≠ 0)
    (hdec : os.toWide w.codePage S = some W)
    (henc : os.toNarrow w.codePage (cview W) = some S)
    (halloc : allocsSucceed 2 w) :
    ∃ w1 w2 wblock sblock wbuf sbuf n m,
      MultiByteToWideChar os w.codePage (S ++ [0]) 0 = some (n, []) ∧
      GlobalAlloc os w (sizeofWCHAR * n) = (w1, some wblock) ∧
      (castWCHAR wblock).length = n ∧
      decode_string os w (some (S ++ [0])) = .ok (w1, some wbuf) ∧
      wbuf.length = n ∧ wbuf = W ++ [0] ∧
      WideCharToMultiByte os w1.codePage wbuf 0 = some (m, []) ∧
      GlobalAlloc os w1 m = (w2, some sblock) ∧
      sblock.length = m ∧
      encode_string os w1 (some wbuf) = .ok (w2, some sbuf) ∧
      sbuf.length = m ∧ sbuf = S ++ [0] := by
  obtain ⟨ha1, halloc1, -⟩ := allocsSucceed_step w 1 halloc
  obtain ⟨ha2, -, -⟩ := allocsSucceed_step (afterAlloc w) 0 halloc1
  have hs : cstr (S ++ [0]) = some S := cstr_terminated S [] hS
  have hw : cstr (W ++ [0]) = some (cview W) := cstr_cview W []
  have hcp : (afterAlloc w).codePage = w.codePage := rfl
  refine ⟨afterAlloc w, afterAlloc (afterAlloc w), fresh os (sizeofWCHAR * (W.length + 1)),
    fresh os (S.length + 1), W ++ [0], S ++ [0], W.length + 1, S.length + 1,
    convertCall_query _ _ _ _ hs hdec, GlobalAlloc_ok os w _ ha1, ?_,
    decode_string_ok os w _ S W hs hdec ha1, by simp, rfl, ?_,
    GlobalAlloc_ok os _ _ ha2, by simp [fresh],
    encode_string_ok os (afterAlloc w) _ (cview W) S hw (by rw [hcp]; exact henc) ha2,
    by simp, rfl⟩
  · rw [castWCHAR_fresh]
    simp [fresh]
  · rw [hcp]
    exact convertCall_query _ _ _ _ hw henc

/-- Witness of C6: the string `hi` under the copying conversions. -/
theorem C6_encode_decode_roundtrip_witness :
    ∃ w1 w2 wblock sblock wbuf sbuf n m,
      MultiByteToWideChar (asciiOS 0 ⟨0, [], 0⟩ none) 65001 ([104, 105] ++ [0]) 0
        = some (n, []) ∧
      GlobalAlloc (asciiOS 0 ⟨0, [], 0⟩ none) ⟨65001, 437, 0, [true, true]⟩ (sizeofWCHAR * n)
        = (w1, some wblock) ∧
      (castWCHAR wblock).length = n ∧
      decode_string (asciiOS 0 ⟨0, [], 0⟩ none) ⟨65001, 437, 0, [true, true]⟩
        (some ([104, 105] ++ [0])) = .ok (w1, some wbuf) ∧
      wbuf.length = n ∧ wbuf = [104, 105] ++ [0] ∧
      WideCharToMultiByte (asciiOS 0 ⟨0, [], 0⟩ none) w1.codePage wbuf 0 = some (m, []) ∧
      GlobalAlloc (asciiOS 0 ⟨0, [], 0⟩ none) w1 m = (w2, some sblock) ∧
      sblock.length = m ∧
      encode_string (asciiOS 0 ⟨0, [], 0⟩ none) w1 (some wbuf) = .ok (w2, some sbuf) ∧
      sbuf.length = m ∧ sbuf = [104, 105] ++ [0] :=
  C6_encode_decode_roundtrip (asciiOS 0 ⟨0, [], 0⟩ none) ⟨65001, 437, 0, [true, true]⟩
    [104, 105] [104, 105] (by decide) rfl rfl (by simp [allocsSucceed])

theorem encode_string_buffer_length (os : OS) (w w1 : World) (src buf : List Nat)
    (h : encode_string os w (some src) = .ok (w1, some buf)) :
    ∃ n d, WideCharToMultiByte os w.codePage src 0 = some (n, d) ∧ buf.length = n := by
  cases hq : WideCharToMultiByte os w.codePage src 0 with
  | none => simp [encode_string, hq] at h
  | some q =>
    obtain ⟨n, d⟩ := q
    refine ⟨n, d, rfl, ?_⟩
    rcases GlobalAlloc_cases os w n with ⟨ha, -⟩ | ⟨ha, -⟩
    · cases hf : WideCharToMultiByte os w.codePage src n with
      | none => simp [encode_string, hq, ha, hf] at h
      | some q2 =>
        obtain ⟨n2, written⟩ := q2
        cases hst : store (fresh os n) written with
        | none => simp [encode_string, hq, ha, hf, hst] at h
        | some out =>
          simp only [encode_string, hq, ha, hf, hst, Outcome.ok.injEq, Prod.mk.injEq,
            Option.some.injEq] at h
          rw [← h.2, store_length _ _ _ hst]
          simp [fresh]
    · simp [encode_string, hq, ha] at h

theorem decode_string_buffer_length (os : OS) (w w1 : World) (src buf : List Nat)
    (h : decode_string os w (some src) = .ok (w1, some buf)) :
    ∃ n d, MultiByteToWideChar os w.codePage src 0 = some (n, d) ∧ buf.length = n := by
  cases hq : MultiByteToWideChar os w.codePage src 0 with
  | none => simp [decode_string, hq] at h
  | some q =>
    obtain ⟨n, d⟩ := q
    refine ⟨n, d, rfl, ?_⟩
    rcases GlobalAlloc_cases os w (sizeofWCHAR * n) with ⟨ha, -⟩ | ⟨ha, -⟩
    · cases hf : MultiByteToWideChar os w.codePage src n with
      | none => simp [decode_string, hq, ha, hf] at h
      | some q2 =>
        obtain ⟨n2, written⟩ := q2
        cases hst : store (castWCHAR (fresh os (sizeofWCHAR * n))) written with
        | none => simp [decode_string, hq, ha, hf, hst] at h
        | some out =>
          simp only [decode_string, hq, ha, hf, hst, Outcome.ok.injEq, Prod.mk.injEq,
            Option.some.injEq] at h
          rw [← h.2, store_length _ _ _ hst, castWCHAR_fresh]
          simp [fresh]
    · simp [decode_string, hq, ha] at h

/-! ## Multiple results -/

theorem luaResults_append (stack vals : List LuaValue) :
    luaResults (stack ++ vals) vals.length = vals := by
  simp [luaResults]

theorem allocFails_iff (w : World) : allocFails w ↔ w.allocs.head?.getD true = false := by
  unfold allocFails
  cases ha : w.allocs with
  | nil => simp
  | cons b rest => cases b <;> simp

theorem afterCalls_live (k : Nat) : ∀ w : World, (afterCalls k w).live = w.live := by
  induction k with
  | zero => intro w; rfl
  | succ k ih => intro w; simp only [afterCalls, ih]; rfl

theorem afterCalls_codePage (k : Nat) :
    ∀ w : World, (afterCalls k w).codePage = w.codePage := by
  induction k with
  | zero => intro w; rfl
  | succ k ih => intro w; simp only [afterCalls, ih]; rfl

theorem afterCalls_allocs (k : Nat) :
    ∀ w : World, (afterCalls k w).allocs = w.allocs.drop k := by
  induction k with
  | zero => intro w; rfl
  | succ k ih =>
    intro w
    simp only [afterCalls, ih, afterCall]
    cases w.allocs <;> simp

theorem pushedValues_length (os : OS) (cp : Nat) (ptrs : List (List Nat)) :
    ∀ allocs : List Bool, (pushedValues os cp allocs ptrs).length = ptrs.length := by
  induction ptrs with
  | nil => intro allocs; rfl
  | cons p rest ih => intro allocs; simp [pushedValues, ih]

theorem pushedValues_get (os : OS) (cp : Nat) (ptrs : List (List Nat)) :
    ∀ (allocs : List Bool) (i : Nat),
      (pushedValues os cp allocs ptrs).get? i
        = (ptrs.get? i).map (pushedValue os cp (allocs.getD i true)) := by
  induction ptrs with
  | nil => intro allocs i; simp [pushedValues]
  | cons p rest ih =>
    intro allocs i
    cases i with
    | zero => cases allocs <;> simp [pushedValues]
    | succ j =>
      simp only [pushedValues, List.get?_cons_succ, ih]
      cases allocs <;> simp

theorem pushedValues_of_succeed (os : OS) (cp : Nat) (ptrs : List (List Nat)) :
    ∀ allocs : List Bool, (∀ b ∈ allocs.take ptrs.length, b = true) →
      pushedValues os cp allocs ptrs = ptrs.map (encodedValue os cp) := by
  induction ptrs with
  | nil => intro allocs _; rfl
  | cons p rest ih =>
    intro allocs h
    cases allocs with
    | nil =>
      have := ih [] (by simp)
      simp [pushedValues, pushedValue, this]
    | cons b t =>
      have hb : b = true := h b (by simp)
      subst hb
      have := ih t (by
        intro c hc
        apply h c
        simp [List.take_succ_cons, hc])
      simp [pushedValues, pushedValue, this]

theorem push_encoded_string_step (os : OS) (w : World) (stack : List LuaValue)
    (p : List Nat) (he : encodable os w.codePage p) :
    ∃ r, push_encoded_string os w stack (some p)
      = .ok (afterCall w,
          stack ++ [pushedValue os w.codePage (w.allocs.head?.getD true) p], r) := by
  by_cases hf : allocFails w
  · obtain ⟨s, _, hs, _⟩ := he
    have hv := (allocFails_iff w).mp hf
    exact ⟨1, by
      rw [push_encoded_string_alloc_failed os w stack p s hs hf, hv]
      simp [pushedValue]⟩
  · have hv : w.allocs.head?.getD true = true := by
      cases hb : w.allocs.head?.getD true
      · exact absurd ((allocFails_iff w).mpr hb) hf
      · rfl
    exact ⟨0, by
      rw [push_encoded_string_ok os w stack p he hf, hv]
      simp [pushedValue]⟩

theorem pushArguments_spec (os : OS) (argv : List (List Nat)) :
    ∀ (room : Nat) (w : World) (stack : List LuaValue),
      argv.length ≤ room →
      (∀ a ∈ argv, encodable os w.codePage a) →
      pushArguments os room w stack argv
        = .ok (afterCalls argv.length w,
            stack ++ pushedValues os w.codePage w.allocs argv) := by
  induction argv with
  | nil =>
    intro room w stack _ _
    cases room <;> simp [pushArguments, pushedValues, afterCalls]
  | cons a rest ih =>
    intro room w stack hroom henc
    obtain ⟨r, rfl⟩ : ∃ r, room = r + 1 := ⟨room - 1, by simp at hroom; omega⟩
    obtain ⟨ret, hpush⟩ :=
      push_encoded_string_step os w stack a (henc a (List.mem_cons_self _ _))
    have hcp : (afterCall w).codePage = w.codePage := rfl
    have hrest := ih r (afterCall w)
      (stack ++ [pushedValue os w.codePage (w.allocs.head?.getD true) a])
      (by simp at hroom; omega)
      (by
        intro b hb
        rw [hcp]
        exact henc b (List.mem_cons_of_mem _ hb))
    simp only [pushArguments, hpush, hrest, hcp, List.length_cons, afterCalls, pushedValues,
      List.append_assoc, List.singleton_append]
    rfl

/-- C7 (as the code has it): when the tokenizer fails, `GetCommandLineArguments`
returns no result and raises no error.  When it yields `n` arguments, `n` at
most the `LUA_MINSTACK` free stack slots, each a terminated wide string the
conversion accepts, the operation returns exactly `n` results in the order of
the arguments: the `i`-th is the encoding of the `i`-th argument when its
narrow buffer is allocated and nil when it is not, so that with successful
allocations the results are exactly the encodings.  No live buffer is left
behind. -/
theorem C7_GetCommandLineArguments_results (os : OS) (w : World) (stack : List LuaValue)
    (tok : Option (List (List Nat)))
    (htok : os.CommandLineToArgvW os.GetCommandLineW = tok)
    (hroom : ∀ argv, tok = some argv → argv.length ≤ LUA_MINSTACK)
    (henc : ∀ argv, tok = some argv → ∀ a ∈ argv, encodable os w.codePage a) :
    (tok = none →
      win32_GetCommandLineArguments os w stack = .ok (w, stack, 0) ∧ luaResults stack 0 = []) ∧
    (∀ argv, tok = some argv →
      ∃ w1 vals, win32_GetCommandLineArguments os w stack = .ok (w1, stack ++ vals, argv.length) ∧
        luaResults (stack ++ vals) argv.length = vals ∧
        vals.length = argv.length ∧
        w1.live = w.live ∧ w1.codePage = w.codePage ∧
        (∀ i, vals.get? i
          = (argv.get? i).map (pushedValue os w.codePage (w.allocs.getD i true))) ∧
        (allocsSucceed argv.length w → vals = argv.map (encodedValue os w.codePage))) := by
  refine ⟨?_, ?_⟩
  · intro hnone
    rw [hnone] at htok
    simp [win32_GetCommandLineArguments, htok, luaResults]
  · intro argv hsome
    rw [hsome] at htok
    have hpush := pushArguments_spec os argv LUA_MINSTACK w stack (hroom argv hsome)
      (henc argv hsome)
    have hlen := pushedValues_length os w.codePage argv w.allocs
    refine ⟨afterCalls argv.length w, pushedValues os w.codePage w.allocs argv,
      by simp [win32_GetCommandLineArguments, htok, hpush], ?_, hlen,
      afterCalls_live _ w, afterCalls_codePage _ w,
      pushedValues_get os w.codePage argv w.allocs,
      pushedValues_of_succeed os w.codePage argv w.allocs⟩
    rw [← hlen]
    exact luaResults_append stack _

/-- Witness of C7: the arguments `a` and `bc`, the first allocation failing. -/
theorem C7_GetCommandLineArguments_results_witness :
    ∃ w1 vals, win32_GetCommandLineArguments (asciiOS 0 ⟨0, [], 0⟩ (some [[97, 0], [98, 99, 0]]))
        ⟨65001, 437, 0, [false, true]⟩ [.nil] = .ok (w1, [.nil] ++ vals, 2) ∧
      luaResults ([.nil] ++ vals) 2 = vals ∧ vals.length = 2 ∧
      vals.get? 0 = some .nil ∧ vals.get? 1 = some (.str [98, 99]) := by
  have henc : ∀ argv, some [[97, 0], [98, 99, 0]] = some argv →
      ∀ a ∈ argv, encodable (asciiOS 0 ⟨0, [], 0⟩ (some [[97, 0], [98, 99, 0]])) 65001 a := by
    intro argv h a ha
    simp only [Option.some.injEq] at h
    subst h
    simp only [List.mem_cons, List.mem_singleton, List.not_mem_nil, or_false] at ha
    rcases ha with rfl | rfl
    · exact ⟨[97], [97], by decide, rfl⟩
    · exact ⟨[98, 99], [98, 99], by decide, rfl⟩
  have hroom : ∀ argv, some [[97, 0], [98, 99, 0]] = some argv → argv.length ≤ LUA_MINSTACK := by
    intro argv h
    simp only [Option.some.injEq] at h
    subst h
    decide
  obtain ⟨w1, vals, h1, h2, h3, -, -, h6, -⟩ :=
    (C7_GetCommandLineArguments_results (asciiOS 0 ⟨0, [], 0⟩ (some [[97, 0], [98, 99, 0]]))
      ⟨65001, 437, 0, [false, true]⟩ [.nil] (some [[97, 0], [98, 99, 0]]) rfl hroom henc).2
      [[97, 0], [98, 99, 0]] rfl
  exact ⟨w1, vals, h1, h2, h3, by rw [h6 0]; decide, by rw [h6 1]; decide⟩

/-- C7 as stated fails: with the single argument `a` and a failing allocation
the one result is nil, not the encoding of `a`; under a code page on which
the conversion fails the call reads an unfilled buffer; and with 21 arguments
the 21st push finds no free stack slot. -/
theorem C7_counterexample_nil_fault_overflow :
    (win32_GetCommandLineArguments (asciiOS 0 ⟨0, [], 0⟩ (some [[97, 0]]))
        ⟨65001, 437, 0, [false]⟩ [] = .ok (⟨65001, 437, 0, []⟩, [.nil], 1) ∧
      encodedValue (asciiOS 0 ⟨0, [], 0⟩ (some [[97, 0]])) 65001 [97, 0] = .str [97]) ∧
    win32_GetCommandLineArguments (noConversionArgvOS (some [[97, 0]]))
        ⟨12345, 437, 0, []⟩ [] = .fault ∧
    win32_GetCommandLineArguments (asciiOS 0 ⟨0, [], 0⟩ (some (List.replicate 21 [97, 0])))
        ⟨65001, 437, 0, []⟩ [] = .fault := by
  decide

theorem multiBuffer_cons (s : List Nat) (segs : List (List Nat)) (rest : List Nat) :
    multiBuffer (s :: segs) ++ rest = s ++ 0 :: (multiBuffer segs ++ rest) := by
  simp [multiBuffer]

theorem multiBuffer_length (segs : List (List Nat)) (rest : List Nat) :
    segs.length < (multiBuffer segs ++ rest).length + 1 := by
  have : segs.length ≤ (multiBuffer segs).length := by
    induction segs with
    | nil => simp
    | cons s t ih =>
      have h2 := multiBuffer_cons s t []
      simp only [List.append_nil] at h2
      rw [h2]
      simp only [List.length_append, List.length_cons]
      omega
  simp only [List.length_append]
  omega

theorem multiSelectLoop_spec (os : OS) (segs : List (List Nat))
    (hseg : ∀ s ∈ segs, s ≠ [] ∧ ∀ u ∈ s, u ≠ 0) :
    ∀ (fuel room : Nat) (w : World) (stack : List LuaValue) (rest : List Nat),
      segs.length < fuel → segs.length ≤ room →
      (∀ s ∈ segs, ∃ out, os.toNarrow w.codePage s = some out) →
      multiSelectLoop os fuel room w stack (multiBuffer segs ++ rest)
        = .ok (afterCalls segs.length w,
            stack ++ pushedValues os w.codePage w.allocs (segs.map (fun s => s ++ [0])),
            room - segs.length) := by
  induction segs with
  | nil =>
    intro fuel room w stack rest hfuel _ _
    obtain ⟨f, rfl⟩ : ∃ f, fuel = f + 1 := ⟨fuel - 1, by simp at hfuel; omega⟩
    simp [multiSelectLoop, multiBuffer, wcslen, cstr, pushedValues, afterCalls]
  | cons s t ih =>
    intro fuel room w stack rest hfuel hroom hconv
    obtain ⟨f, rfl⟩ : ∃ f, fuel = f + 1 := ⟨fuel - 1, by simp at hfuel; omega⟩
    obtain ⟨r, rfl⟩ : ∃ r, room = r + 1 := ⟨room - 1, by simp at hroom; omega⟩
    have hs := hseg s (List.mem_cons_self _ _)
    have hcs : cstr (s ++ 0 :: (multiBuffer t ++ rest)) = some s := cstr_terminated s _ hs.2
    have hcs2 : cstr (s ++ [0]) = some s := cstr_terminated s [] hs.2
    have hlen : s.length ≠ 0 := by
      intro h0
      exact hs.1 (List.length_eq_zero.mp h0)
    obtain ⟨out, hout⟩ := hconv s (List.mem_cons_self _ _)
    obtain ⟨ret, hstep⟩ := push_encoded_string_step os w stack (s ++ [0]) ⟨s, out, hcs2, hout⟩
    have hpush : push_encoded_string os w stack (some (s ++ 0 :: (multiBuffer t ++ rest)))
        = .ok (afterCall w,
            stack ++ [pushedValue os w.codePage (w.allocs.head?.getD true) (s ++ [0])], ret) := by
      rw [push_encoded_string_congr os w stack _ (s ++ [0]) (by rw [hcs, hcs2]), hstep]
    have hdrop : (s ++ 0 :: (multiBuffer t ++ rest)).drop (s.length + 1)
        = multiBuffer t ++ rest := by
      rw [List.drop_append_eq_append_drop]
      simp
    have hcp : (afterCall w).codePage = w.codePage := rfl
    have hrest := ih (fun x hx => hseg x (List.mem_cons_of_mem _ hx)) f r (afterCall w)
      (stack ++ [pushedValue os w.codePage (w.allocs.head?.getD true) (s ++ [0])]) rest
      (by simp at hfuel; omega) (by simp at hroom; omega)
      (by
        intro x hx
        rw [hcp]
        exact hconv x (List.mem_cons_of_mem _ hx))
    rw [multiBuffer_cons]
    simp only [multiSelectLoop, wcslen, hcs, Option.map_some', hlen, if_false, hpush, hdrop,
      hrest, hcp, List.map_cons, List.length_cons, afterCalls, pushedValues,
      List.append_assoc, List.singleton_append, Nat.add_sub_add_right]
    rfl

/-- C5 (as the code has it): on a buffer made of `k` non-empty segments free
of zero units, each followed by one zero unit, and one more zero unit,
whatever follows in the buffer, with `k` at most the free stack slots and
every segment accepted by the conversion, the multi-select loop ends (any
fuel above `k` is enough, and the fuel `get_filename` gives it is) with
exactly `k` values pushed, in the order of the segments: the `i`-th is the
encoding of `si` when its narrow buffer is allocated and nil when it is not,
so that with successful allocations the values are exactly the encodings of
`s1`, ..., `sk`.  No read leaves the buffer and no live buffer is left
behind. -/
theorem C5_multiSelectLoop_splits (os : OS) (w : World) (stack : List LuaValue)
    (segs : List (List Nat)) (rest : List Nat) (fuel room : Nat)
    (hseg : ∀ s ∈ segs, s ≠ [] ∧ ∀ u ∈ s, u ≠ 0)
    (hconv : ∀ s ∈ segs, ∃ out, os.toNarrow w.codePage s = some out)
    (hfuel : segs.length < fuel) (hroom : segs.length ≤ room) :
    ∃ w1 vals,
      multiSelectLoop os fuel room w stack (multiBuffer segs ++ rest)
        = .ok (w1, stack ++ vals, room - segs.length) ∧
      multiSelectLoop os ((multiBuffer segs ++ rest).length + 1) room w stack
          (multiBuffer segs ++ rest)
        = .ok (w1, stack ++ vals, room - segs.length) ∧
      vals.length = segs.length ∧
      w1.live = w.live ∧
      (∀ i, vals.get? i = (segs.get? i).map
        (fun s => pushedValue os w.codePage (w.allocs.getD i true) (s ++ [0]))) ∧
      (allocsSucceed segs.length w →
        vals = segs.map (fun s => encodedValue os w.codePage (s ++ [0]))) := by
  have hmain := multiSelectLoop_spec os segs hseg
  refine ⟨afterCalls segs.length w,
    pushedValues os w.codePage w.allocs (segs.map (fun s => s ++ [0])),
    hmain fuel room w stack rest hfuel hroom hconv,
    hmain _ room w stack rest (multiBuffer_length segs rest) hroom hconv,
    by simp [pushedValues_length], afterCalls_live _ w, ?_, ?_⟩
  · intro i
    rw [pushedValues_get]
    simp only [List.get?_eq_getElem?, List.getElem?_map, Option.map_map]
    rfl
  · intro hsucc
    have hs : ∀ b ∈ w.allocs.take (segs.map (fun s => s ++ [0])).length, b = true := by
      rw [List.length_map]
      exact hsucc
    rw [pushedValues_of_succeed os w.codePage _ w.allocs hs]
    simp [List.map_map, Function.comp]

/-- Witness of C5: the buffer `a\0b\0c\0\0` yields `a`, `b`, `c`. -/
theorem C5_multiSelectLoop_splits_witness :
    multiBuffer [[97], [98], [99]] ++ [] = [97, 0, 98, 0, 99, 0, 0] ∧
    ∃ w1 vals, multiSelectLoop (asciiOS 0 ⟨0, [], 0⟩ none) 8 LUA_MINSTACK
        ⟨65001, 437, 0, []⟩ [] (multiBuffer [[97], [98], [99]] ++ [])
      = .ok (w1, [] ++ vals, LUA_MINSTACK - 3) ∧
      vals = [.str [97], .str [98], .str [99]] ∧ w1.live = 0 := by
  refine ⟨by decide, ?_⟩
  obtain ⟨w1, vals, h1, -, -, h4, -, h6⟩ :=
    C5_multiSelectLoop_splits (asciiOS 0 ⟨0, [], 0⟩ none) ⟨65001, 437, 0, []⟩ []
      [[97], [98], [99]] [] 8 LUA_MINSTACK (by decide) (fun s _ => ⟨s, rfl⟩) (by decide)
      (by decide)
  exact ⟨w1, vals, h1, by rw [h6 (by simp [allocsSucceed])]; decide, h4⟩

/-- C5 as stated fails: on the buffer `a\0b\0c\0\0` a failing first
allocation makes the loop push nil in place of `a`; under a code page on
which the conversion fails the loop reads an unfilled buffer; and on a buffer
of 21 segments the 21st push finds no free stack slot. -/
theorem C5_counterexample_nil_fault_overflow :
    multiSelectLoop (asciiOS 0 ⟨0, [], 0⟩ none) 8 LUA_MINSTACK ⟨65001, 437, 0, [false]⟩ []
        [97, 0, 98, 0, 99, 0, 0]
      = .ok (⟨65001, 437, 0, []⟩, [.nil, .str [98], .str [99]], 17) ∧
    multiSelectLoop noConversionOS 8 LUA_MINSTACK ⟨12345, 437, 0, []⟩ []
        [97, 0, 98, 0, 99, 0, 0] = .fault ∧
    multiSelectLoop (asciiOS 0 ⟨0, [], 0⟩ none) 44 LUA_MINSTACK ⟨65001, 437, 0, []⟩ []
        (multiBuffer (List.replicate 21 [97])) = .fault := by
  decide

/-! ## What the facade operations hand back -/

theorem get_filename_single_result (os : OS) (w w1 : World) (stack st : List LuaValue)
    (isSave n : Nat) (h : get_filename os w stack isSave = .ok (w1, st, n)) :
    n = 1 ∧ ∃ b, luaResults st n = [.bool b] := by
  unfold get_filename at h
  simp only at h
  repeat' split at h
  all_goals first
    | (simp only [Outcome.ok.injEq, Prod.mk.injEq] at h
       obtain ⟨-, rfl, rfl⟩ := h
       refine ⟨rfl, ?_⟩
       simp [luaResults])
    | (exfalso; simp at h)

theorem push_encoded_string_live (os : OS) (w w1 : World) (stack st : List LuaValue)
    (ws : Option (List Nat)) (r : Int)
    (h : push_encoded_string os w stack ws = .ok (w1, st, r)) : w1.live = w.live := by
  cases ws with
  | none =>
    simp only [push_encoded_string, Outcome.ok.injEq, Prod.mk.injEq] at h
    rw [← h.1]
  | some p =>
    cases hq : WideCharToMultiByte os w.codePage p 0 with
    | none => simp [push_encoded_string, encode_string, hq] at h
    | some q =>
      obtain ⟨n, d⟩ := q
      rcases GlobalAlloc_cases os w n with ⟨ha, -⟩ | ⟨ha, -⟩
      · cases hf : WideCharToMultiByte os w.codePage p n with
        | none => simp [push_encoded_string, encode_string, hq, ha, hf] at h
        | some q2 =>
          obtain ⟨n2, written⟩ := q2
          cases hst : store (fresh os n) written with
          | none => simp [push_encoded_string, encode_string, hq, ha, hf, hst] at h
          | some buf =>
            cases hl : lua_pushstring stack buf with
            | none => simp [push_encoded_string, encode_string, hq, ha, hf, hst, hl] at h
            | some st2 =>
              simp only [push_encoded_string, encode_string, hq, ha, hf, hst, hl,
                Outcome.ok.injEq, Prod.mk.injEq] at h
              rw [← h.1]
              simp [GlobalFree, afterAlloc]
      · simp only [push_encoded_string, encode_string, hq, ha, Outcome.ok.injEq,
          Prod.mk.injEq] at h
        rw [← h.1]
        rfl

theorem win32_ShellExecute_result (os : OS) (w w1 : World) (stack st : List LuaValue)
    (n : Nat) (h : win32_ShellExecute os w stack = .ok (w1, st, n)) :
    n = 1 ∧ ∃ o f p d, luaResults st n
      = [.bool (decide (toInt32 (os.ShellExecuteW o f p d SW_SHOWNORMAL) ≤ 32))] := by
  have hl : ∀ (s : List LuaValue) (x : LuaValue), luaResults (s ++ [x]) 1 = [x] := by
    intro s x
    simp [luaResults]
  unfold win32_ShellExecute at h
  simp only at h
  repeat' split at h
  all_goals first
    | (simp only [Outcome.ok.injEq, Prod.mk.injEq] at h
       obtain ⟨-, rfl, rfl⟩ := h
       refine ⟨rfl, ?_⟩
       simp only [hl]
       exact ⟨_, _, _, _, rfl⟩)
    | (exfalso; simp at h)

theorem get_filename_multiselect (os : OS) (w : World) (stack : List LuaValue)
    (isSave : Nat) (dlg : DialogResult) (segs : List (List Nat)) (rest : List Nat)
    (hdlg : (if isSave ≠ 0
        then os.GetSaveFileNameW (OFN_LONGNAMES ||| OFN_NOCHANGEDIR ||| OFN_EXPLORER)
          OPENFILES_MAX_SIZE
        else os.GetOpenFileNameW (OFN_LONGNAMES ||| OFN_NOCHANGEDIR ||| OFN_EXPLORER)
          OPENFILES_MAX_SIZE) = dlg)
    (hdone : dlg.done ≠ 0) (hflag : dlg.flags &&& OFN_ALLOWMULTISELECT ≠ 0)
    (hfile : dlg.file = multiBuffer segs ++ rest)
    (hseg : ∀ s ∈ segs, s ≠ [] ∧ ∀ u ∈ s, u ≠ 0)
    (hconv : ∀ s ∈ segs, ∃ out, os.toNarrow w.codePage s = some out)
    (hk : segs.length < LUA_MINSTACK) :
    get_filename os w stack isSave
      = .ok (afterCalls segs.length w,
          stack ++ pushedValues os w.codePage w.allocs (segs.map (fun s => s ++ [0]))
            ++ [.bool true], 1) := by
  have hloop := multiSelectLoop_spec os segs hseg (dlg.file.length + 1) LUA_MINSTACK w stack
    rest (by rw [hfile]; exact multiBuffer_length segs rest) (Nat.le_of_lt hk) hconv
  have hroom : LUA_MINSTACK - segs.length ≠ 0 := by omega
  unfold get_filename
  simp only [hdlg, hdone, hflag, ne_eq, not_false_eq_true, if_true]
  rw [hfile] at hloop ⊢
  simp only [hloop, hroom, if_false]

end Win32
